import Mathlib

/-!
Verification of `simple-vector` (src/simple-vector/simple_vector.h).

The container `SimpleVector<Type>` owns a raw buffer (`ArrayPtr<Type> items_`)
together with two counters `size_` and `capacity_`.  Offsets `[0, size_)` hold
the logical elements; offsets `[size_, capacity_)` are allocated residue that
no public operation ever reads (every growth path overwrites each newly
exposed logical slot before it becomes visible).  The shallow embedding
therefore records exactly the visible state: the logical sequence as a
`List α` (whose length is `size_`) and the `capacity_` counter.

Moves of elements during relocation (reserve / resize / insert / erase use
`std::make_move_iterator`) transfer the value and leave residue only in slots
that are outside the logical range afterwards, so relocation is modelled as
plain value transfer.  The single place where a moved-from element remains
logically visible is the fill loop of the sized constructor
`SimpleVector(size_t size, Type&& value)`, which repeatedly moves from the
same `value`; that loop gets a dedicated model (`fillByMove`) parameterised
by the residue a move leaves behind.
-/

namespace SimpleVec

/-- Visible state of a `SimpleVector<Type>`: the logical elements
`items_[0 .. size_)` and the `capacity_` counter.  `size_` is `items.length`. -/
structure SV (α : Type) where
  items : List α
  capacity : Nat
  deriving Repr, DecidableEq

namespace SV

variable {α : Type}

/-- `GetSize`: returns `size_`. -/
def GetSize (v : SV α) : Nat := v.items.length

/-- `GetCapacity`: returns `capacity_`. -/
def GetCapacity (v : SV α) : Nat := v.capacity

/-- Class invariant relied on throughout the source: `size_ <= capacity_`. -/
def Inv (v : SV α) : Prop := v.items.length ≤ v.capacity

instance (v : SV α) : Decidable v.Inv := by
  unfold Inv; infer_instance

/-- Default constructor `SimpleVector()`: `size_ = capacity_ = 0`, no buffer. -/
def mkDefault : SV α := ⟨[], 0⟩

/-- Fill loop of `SimpleVector(size_t size, Type&& value)`:
`for (i = 0; i < size_; ++i) items_[i] = std::move(value);`.
Each iteration move-assigns the current contents of `value` into slot `i`
and leaves `residue value` behind in `value`.  `residue` models what a
move-from leaves in the source object (for trivially copyable types such as
`int` it is the identity). -/
def fillByMove (residue : α → α) : Nat → α → List α
  | 0, _ => []
  | n + 1, value => value :: fillByMove residue n (residue value)

/-- Constructor `SimpleVector(size_t size, Type&& value)`:
`items_(size), size_(size), capacity_(size)` then the move-fill loop. -/
def mkSizedMoveFill (residue : α → α) (n : Nat) (value : α) : SV α :=
  ⟨fillByMove residue n value, n⟩

/-- Constructor `SimpleVector(size_t size)`: delegates to the move-fill
constructor with a default-constructed `Type()` (`d` is `Type()`). -/
def mkSized (residue : α → α) (d : α) (n : Nat) : SV α :=
  mkSizedMoveFill residue n d

/-- Constructor `SimpleVector(size_t size, const Type& value)`:
`items_(size), size_(size), capacity_(size)` then `std::fill` with `value`. -/
def mkFill (n : Nat) (value : α) : SV α :=
  ⟨List.replicate n value, n⟩

/-- Constructor `SimpleVector(std::initializer_list<Type>)`: copies the list,
`size_ = capacity_ = init.size()`. -/
def mkFromList (l : List α) : SV α :=
  ⟨l, l.length⟩

/-- Copy constructor: buffer of `other.capacity_`, elements `[0, size_)`
copied, `size_`/`capacity_` copied. -/
def copyCtor (other : SV α) : SV α :=
  ⟨other.items, other.capacity⟩

/-- Move constructor `SimpleVector(SimpleVector&& other)`:
`items_ = std::move(other.items_); size_ = std::move(other.size_);
capacity_ = size_; other.size_ = 0; other.capacity_ = 0;`.
Note the source line `capacity_ = size_;`: the destination's capacity is set
to the moved size, not to `other.capacity_`.  Returns
(destination, source after the move). -/
def moveCtor (other : SV α) : SV α × SV α :=
  (⟨other.items, other.items.length⟩, ⟨[], 0⟩)

/-- Copy assignment `operator=(const SimpleVector& rhs)`: unless `this == &rhs`,
builds a full temporary copy of `rhs` and swaps with it.  The resulting state
of `*this` is a copy of `rhs` (items and capacity); self-assignment is a
no-op with the same visible result. -/
def assignCopy (_this rhs : SV α) : SV α :=
  ⟨rhs.items, rhs.capacity⟩

/-- Move assignment `operator=(SimpleVector&& rhs)`: transfers the buffer,
swaps `size_`/`capacity_`, then zeroes `rhs`.  Returns
(new state of `*this`, state of `rhs` afterwards). -/
def assignMove (_this rhs : SV α) : SV α × SV α :=
  (⟨rhs.items, rhs.capacity⟩, ⟨[], 0⟩)

/-- Member `Reserve(size_t new_capacity)`: if `new_capacity > capacity_`,
allocate a buffer of `new_capacity`, move the `size_` elements across, swap
buffers and set `capacity_`; otherwise do nothing. -/
def Reserve (v : SV α) (newCapacity : Nat) : SV α :=
  if newCapacity > v.capacity then ⟨v.items, newCapacity⟩ else v

/-- Constructor `SimpleVector(ReserveProxyObj obj)`: default-initial state,
then the body calls the member `Reserve(obj.capacity_to_reserve_)`
(unqualified lookup finds the member function, not the free `Reserve`). -/
def mkReserved (c : Nat) : SV α :=
  Reserve mkDefault c

/-- `Resize(size_t new_size)`.  Three branches of the source:
shrink (`new_size <= size_`): just `size_ = new_size`;
grow in place (`size_ < new_size <= capacity_`): default-fill the newly
exposed slots, `size_ = new_size`;
grow capacity (`new_size > capacity_`): `capacity_ = max(new_size,
capacity_ * 2)`, allocate, move the old elements, default-fill the rest,
swap buffers, `size_ = new_size`.  `d` models `Type()`. -/
def Resize (d : α) (v : SV α) (newSize : Nat) : SV α :=
  if newSize ≤ v.capacity then
    if newSize ≤ v.items.length then
      ⟨v.items.take newSize, v.capacity⟩
    else
      ⟨v.items ++ List.replicate (newSize - v.items.length) d, v.capacity⟩
  else
    ⟨v.items ++ List.replicate (newSize - v.items.length) d,
      max newSize (v.capacity * 2)⟩

/-- `PushBack(item)`: remembers `index = size_`; if `size_ == capacity_`
grows via `Resize(capacity_ + 1)`, else just `++size_`; finally
`items_[index] = item`.  Both the copy and the move overload have this
visible behaviour. -/
def PushBack (d : α) (v : SV α) (item : α) : SV α :=
  let index := v.items.length
  if v.items.length = v.capacity then
    let r := Resize d v (v.capacity + 1)
    ⟨r.items.set index item, r.capacity⟩
  else
    ⟨v.items ++ [item], v.capacity⟩

/-- `Insert(pos, value)` with `index = pos - begin()` (asserted to lie in
`[0, size_]`).  If `size_ < capacity_`: shift `[index, size_)` one slot right
by `std::copy_backward`, write `value` at `index`, `++size_`.  Otherwise:
build a temporary of capacity `max(capacity_ * 2, 1)` via the sized
constructor, set its size to `size_ + 1`, copy `[0, index)`, the value, and
`[index, size_)` into it, and swap.  Either way the visible sequence becomes
`take index ++ [value] ++ drop index`.  Returns the state; the returned
iterator is `begin() + index`, i.e. the same `index`. -/
def Insert (v : SV α) (index : Nat) (value : α) : SV α :=
  if v.items.length < v.capacity then
    ⟨v.items.take index ++ value :: v.items.drop index, v.capacity⟩
  else
    ⟨v.items.take index ++ value :: v.items.drop index,
      max (v.capacity * 2) 1⟩

/-- `Erase(pos)` with `index = pos - begin()` (asserted in `[0, size_)`):
shift `[index + 1, size_)` one slot left, `--size_`.  Returns the state; the
returned iterator is `begin() + index`. -/
def Erase (v : SV α) (index : Nat) : SV α :=
  ⟨v.items.take index ++ v.items.drop (index + 1), v.capacity⟩

/-- `PopBack()`: `--size_` unless empty. -/
def PopBack (v : SV α) : SV α :=
  if v.items.isEmpty then v else ⟨v.items.dropLast, v.capacity⟩

/-- `Clear()`: `size_ = 0`, capacity kept. -/
def Clear (v : SV α) : SV α :=
  ⟨[], v.capacity⟩

/-- Member `swap(SimpleVector& other)`: swaps `items_`, `size_`, `capacity_`.
Returns the pair (new `*this`, new `other`). -/
def swapSV (v other : SV α) : SV α × SV α :=
  (other, v)

/-- `operator[]` (both variants): unchecked read of `items_[index]`;
precondition `index < size_` (only asserted).  Modelled as the partial
lookup into the logical sequence. -/
def getUnchecked (v : SV α) (index : Nat) : Option α :=
  v.items[index]?

/-- `At(size_t index)` (both the mutable and the const variant): throws
`std::out_of_range` when `index >= size_`, otherwise returns
`items_[index]`.  The vector itself is not modified. -/
def At (v : SV α) (index : Nat) : Except Unit α :=
  if index ≥ v.items.length then
    Except.error ()
  else
    match v.items[index]? with
    | some a => Except.ok a
    | none => Except.error ()

/-- Modelled from the spec: the owned buffer lives in `array_ptr.h`, which is
not among the provided sources; per the spec the buffer contract is
`allocate(n) -> Buffer`, which fails with an AllocationFailure condition
(an exception) when memory cannot be obtained.  Each growth call of
`SimpleVector` performs at most one allocation, so a call is modelled with
the outcome `ok` of that single attempt: `tryAlloc ok n` is `some n` (a
fresh buffer of `n` slots whose contents are never-observed residue) on
success and `none` when the allocation throws. -/
def tryAlloc (ok : Bool) (n : Nat) : Option Nat :=
  if ok then some n else none

/-- Fallible `Reserve(new_capacity)`: the source allocates
(`ArrayPtr<Type> temp(new_capacity)`) before touching any member, so when
the allocation throws the container is unchanged.  Returns
(allocation failure propagated, visible state afterwards). -/
def ReserveF (ok : Bool) (v : SV α) (newCapacity : Nat) : Bool × SV α :=
  if newCapacity > v.capacity then
    match tryAlloc ok newCapacity with
    | some _ => (false, ⟨v.items, newCapacity⟩)
    | none => (true, v)
  else
    (false, v)

/-- Fallible `Resize(new_size)`.  In the `new_size > capacity_` branch the
source first executes `capacity_ = std::max(new_size, capacity_ * 2);` and
only then allocates (`ArrayPtr<Type> temp(capacity_);`), so when the
allocation throws, the exception propagates with `capacity_` already
overwritten while `size_` and the elements are untouched.  Returns
(allocation failure propagated, visible state afterwards). -/
def ResizeF (ok : Bool) (d : α) (v : SV α) (newSize : Nat) : Bool × SV α :=
  if newSize ≤ v.capacity then
    (false, Resize d v newSize)
  else
    let newCap := max newSize (v.capacity * 2)
    match tryAlloc ok newCap with
    | some _ =>
        (false, ⟨v.items ++ List.replicate (newSize - v.items.length) d, newCap⟩)
    | none => (true, ⟨v.items, newCap⟩)

/-- Fallible `PushBack(item)`: when full it calls `Resize(capacity_ + 1)`,
and an allocation failure inside that call propagates, leaving the state
`Resize` left behind; otherwise no allocation happens. -/
def PushBackF (ok : Bool) (d : α) (v : SV α) (item : α) : Bool × SV α :=
  let index := v.items.length
  if v.items.length = v.capacity then
    match ResizeF ok d v (v.capacity + 1) with
    | (true, s) => (true, s)
    | (false, s) => (false, ⟨s.items.set index item, s.capacity⟩)
  else
    (false, ⟨v.items ++ [item], v.capacity⟩)

/-- Fallible `Insert(pos, value)`: in the full branch the allocation happens
inside the construction of the local temporary (`SimpleVector<Type>
temp(std::max(capacity_ * 2, size_t(1)))`) before `*this` is touched, and
`*this` is only updated by the final `swap(temp)`, so when the allocation
throws the container is unchanged. -/
def InsertF (ok : Bool) (v : SV α) (index : Nat) (value : α) : Bool × SV α :=
  if v.items.length < v.capacity then
    (false, ⟨v.items.take index ++ value :: v.items.drop index, v.capacity⟩)
  else
    match tryAlloc ok (max (v.capacity * 2) 1) with
    | some _ =>
        (false, ⟨v.items.take index ++ value :: v.items.drop index,
          max (v.capacity * 2) 1⟩)
    | none => (true, v)

/-- Driver loop `for (i = 0; i < k; ++i) v.PushBack(f(i));` starting from a
default-constructed vector, as the test driver (src/simple-vector/main.cpp)
does in its push-back tests.  `pushSeq d f k` is the state after `k` pushes. -/
def pushSeq (d : α) (f : Nat → α) : Nat → SV α
  | 0 => mkDefault
  | k + 1 => PushBack d (pushSeq d f k) (f k)

end SV

namespace SV

variable {α : Type}

theorem fillByMove_length (residue : α → α) :
    ∀ (n : Nat) (value : α), (fillByMove residue n value).length = n := by
  intro n
  induction n with
  | zero => intro value; rfl
  | succ k ih => intro value; simp [fillByMove, ih]

theorem fillByMove_fixed (residue : α → α) (d : α) (hres : residue d = d) :
    ∀ n : Nat, fillByMove residue n d = List.replicate n d := by
  intro n
  induction n with
  | zero => rfl
  | succ k ih => simp [fillByMove, hres, ih, List.replicate_succ]

theorem set_append_singleton (l : List α) (d x : α) :
    (l ++ [d]).set l.length x = l ++ [x] := by
  induction l with
  | nil => rfl
  | cons a t ih => simp [List.set, ih]

theorem insert_items (v : SV α) (index : Nat) (x : α) :
    (Insert v index x).items = v.items.take index ++ x :: v.items.drop index := by
  unfold Insert
  split <;> rfl

theorem insert_length (v : SV α) (index : Nat) (x : α) :
    (Insert v index x).items.length = v.items.length + 1 := by
  rw [insert_items]
  simp only [List.length_append, List.length_take, List.length_cons,
    List.length_drop]
  omega

theorem insert_capacity (v : SV α) (index : Nat) (x : α) :
    (Insert v index x).capacity =
      if v.items.length < v.capacity then v.capacity
      else max (v.capacity * 2) 1 := by
  unfold Insert
  split <;> simp_all

theorem resize_grow_items (d : α) (v : SV α) (n : Nat)
    (h : v.items.length ≤ n) :
    (Resize d v n).items = v.items ++ List.replicate (n - v.items.length) d := by
  unfold Resize
  split
  · split
    · have hl : v.items.length = n := Nat.le_antisymm h (by assumption)
      simp [hl]
    · rfl
  · rfl

theorem resize_length (d : α) (v : SV α) (n : Nat) (hinv : v.Inv) :
    (Resize d v n).items.length = n := by
  unfold Resize
  split
  · split
    · simpa using Nat.min_eq_left (by assumption)
    · have : v.items.length ≤ n := Nat.le_of_lt (by omega)
      simp [this]
  · have hcap : v.capacity < n := by omega
    have : v.items.length ≤ n := Nat.le_trans hinv (Nat.le_of_lt hcap)
    simp [this]

theorem resize_capacity_ge (d : α) (v : SV α) (n : Nat) :
    n ≤ (Resize d v n).capacity := by
  unfold Resize
  split
  · split <;> simp_all
  · simp [Nat.le_max_left]

theorem pushBack_items (d : α) (v : SV α) (x : α) :
    (PushBack d v x).items = v.items ++ [x] := by
  unfold PushBack
  split
  · have hfull : v.items.length = v.capacity := by assumption
    have hgrow : v.items.length ≤ v.capacity + 1 := by omega
    simp only [resize_grow_items d v (v.capacity + 1) hgrow]
    have hrepl : v.capacity + 1 - v.items.length = 1 := by omega
    rw [hrepl]
    simp only [List.replicate, List.replicate_zero]
    exact set_append_singleton v.items d x
  · rfl

theorem pushBack_capacity (d : α) (v : SV α) (x : α) :
    (PushBack d v x).capacity =
      if v.items.length = v.capacity
        then max (v.capacity + 1) (v.capacity * 2)
        else v.capacity := by
  unfold PushBack Resize
  split
  · have hfull : v.items.length = v.capacity := by assumption
    simp_all
  · simp_all

theorem pushBack_inv (d : α) (v : SV α) (x : α) (hinv : v.Inv) :
    (PushBack d v x).Inv := by
  unfold Inv
  rw [pushBack_items d v x, pushBack_capacity d v x]
  simp only [List.length_append, List.length_cons, List.length_nil]
  split
  · have h1 := Nat.le_max_left (v.capacity + 1) (v.capacity * 2)
    omega
  · have : v.items.length < v.capacity := by
      rcases Nat.lt_or_ge v.items.length v.capacity with h | h
      · exact h
      · exact absurd (Nat.le_antisymm hinv h) (by assumption)
    omega

theorem resize_shrink_items (d : α) (v : SV α) (n : Nat)
    (hn : n ≤ v.items.length) (hc : n ≤ v.capacity) :
    (Resize d v n).items = v.items.take n := by
  unfold Resize
  simp [hn, hc]

theorem resize_capacity_grow (d : α) (v : SV α) (n : Nat) (h : v.capacity < n) :
    (Resize d v n).capacity = max n (v.capacity * 2) := by
  unfold Resize
  simp [Nat.not_le.mpr h]

theorem pushSeq_spec (d : α) (f : Nat → α) :
    ∀ k : Nat, (pushSeq d f k).items.length = k ∧ k ≤ (pushSeq d f k).capacity := by
  intro k
  induction k with
  | zero => exact ⟨rfl, Nat.le_refl 0⟩
  | succ k ih =>
    have hinv : (pushSeq d f k).Inv := by
      unfold Inv
      omega
    have hlen : (pushSeq d f (k + 1)).items.length = k + 1 := by
      show (PushBack d (pushSeq d f k) (f k)).items.length = k + 1
      rw [pushBack_items]
      simp [ih.1]
    refine ⟨hlen, ?_⟩
    have h2 := pushBack_inv d (pushSeq d f k) (f k) hinv
    unfold Inv at h2
    show k + 1 ≤ (PushBack d (pushSeq d f k) (f k)).capacity
    have : (PushBack d (pushSeq d f k) (f k)).items.length = k + 1 := hlen
    omega

theorem insert_inv (v : SV α) (index : Nat) (x : α) (hinv : v.Inv) :
    (Insert v index x).Inv := by
  unfold Inv
  rw [insert_length, insert_capacity]
  split
  · omega
  · have hfull : v.items.length = v.capacity := by
      rcases Nat.lt_or_ge v.items.length v.capacity with h | h
      · exact absurd h (by assumption)
      · exact Nat.le_antisymm hinv h
    omega

end SV

section Claims

variable {α : Type}

/-- C1: the spec requires that when the buffer allocation fails inside any
growth path (`Reserve`, `Resize`, `PushBack`, `Insert`), the error propagates
and the container's visible state (size, capacity, logical elements) is
exactly what it was before the call.  The code violates this requirement:
`Resize` executes `capacity_ = std::max(new_size, capacity_ * 2);` before
allocating the new buffer, so an allocation failure propagates with
`capacity_` already overwritten.  Evaluated at the failing input - the
vector `[0]` with `size = capacity = 1`, calling `Resize(2)` while the
single allocation throws: the failure propagates (first component `true`)
but the capacity afterwards is 2, not the original 1, and `PushBack` on the
same full vector reaches the same path.  `Reserve` and `Insert` do leave
the state untouched on allocation failure. -/
theorem C1_resize_failed_alloc_mutates_state :
    (SV.ResizeF false (0 : Nat) (SV.mk [0] 1) 2 = (true, SV.mk [0] 2)
        ∧ ¬ (SV.ResizeF false (0 : Nat) (SV.mk [0] 1) 2).2.capacity
            = (SV.mk [(0 : Nat)] 1).capacity)
      ∧ SV.PushBackF false (0 : Nat) (SV.mk [0] 1) 7 = (true, SV.mk [0] 2)
      ∧ SV.ReserveF false (SV.mk [(0 : Nat)] 1) 2 = (true, SV.mk [0] 1)
      ∧ SV.InsertF false (SV.mk [(0 : Nat)] 1) 0 7 = (true, SV.mk [0] 1) := by
  decide

/-- C2 counterexample: a reachable vector with size 1 and capacity 2
(construct with a reservation hint of 2, then push one element).  The claim
predicts that the move-constructed destination has the source's prior
capacity, 2; the source line `capacity_ = size_;` makes it 1. -/
theorem C2_counterexample :
    (SV.moveCtor (SV.PushBack 0 (SV.mkReserved 2 : SV Nat) 5)).1.capacity = 1
      ∧ ¬ (SV.moveCtor (SV.PushBack 0 (SV.mkReserved 2 : SV Nat) 5)).1.capacity
          = (SV.PushBack 0 (SV.mkReserved 2 : SV Nat) 5).capacity := by
  decide

/-- C2 amended: move construction transfers the buffer; the destination
receives the source's prior logical sequence and prior size, but its
capacity is set to the prior SIZE (not the prior capacity), and the source
is left a valid, usable empty vector with `size = capacity = 0` (both sides
satisfy the class invariant). -/
theorem C2_move_ctor_spec (v : SV α) :
    (SV.moveCtor v).1.items = v.items
      ∧ (SV.moveCtor v).1.GetSize = v.GetSize
      ∧ (SV.moveCtor v).1.GetCapacity = v.GetSize
      ∧ (SV.moveCtor v).2.GetSize = 0
      ∧ (SV.moveCtor v).2.GetCapacity = 0
      ∧ (SV.moveCtor v).1.Inv
      ∧ (SV.moveCtor v).2.Inv := by
  refine ⟨rfl, rfl, rfl, rfl, rfl, ?_, ?_⟩
  · exact Nat.le_refl _
  · exact Nat.le_refl _

/-- C6: constructing from a reservation hint with requested capacity `c`
(the `ReserveProxyObj` constructor, whose body calls the member `Reserve`)
yields `size == 0` and `capacity == c`, with no logical elements. -/
theorem C6_reserve_ctor_spec (c : Nat) :
    (SV.mkReserved c : SV α).GetSize = 0
      ∧ (SV.mkReserved c : SV α).GetCapacity = c
      ∧ (SV.mkReserved c : SV α).items = [] := by
  unfold SV.mkReserved SV.Reserve SV.mkDefault SV.GetSize SV.GetCapacity
  refine ⟨?_, ?_, ?_⟩
  · split <;> rfl
  · split
    · rfl
    · rename_i h
      simp at h ⊢
      omega
  · split <;> rfl

/-- C10: the member `swap` exchanges the complete observable states of the
two vectors (logical sequence, size and capacity travel together in the
state), and applying it twice restores both.  The source swaps the owned
pointer and the two counters, so no allocation can occur; accordingly the
model needs no allocation outcome for it. -/
theorem C10_swap_spec (v w : SV α) :
    (SV.swapSV v w).1 = w
      ∧ (SV.swapSV v w).2 = v
      ∧ SV.swapSV (SV.swapSV v w).1 (SV.swapSV v w).2 = (v, w) :=
  ⟨rfl, rfl, rfl⟩

/-- C3: after `Resize(n)` on a vector satisfying the class invariant,
`size == n` and `capacity >= n`; elements at offsets below
`min(oldSize, n)` are unchanged; elements at offsets in `[oldSize, n)`
(when growing) equal the default value; and when `n` exceeds the old
capacity, the new capacity equals `max(n, oldCapacity * 2)`. -/
theorem C3_resize_spec (d : α) (v : SV α) (n : Nat) (hinv : v.Inv) :
    (SV.Resize d v n).GetSize = n
      ∧ n ≤ (SV.Resize d v n).GetCapacity
      ∧ (∀ i, i < min v.GetSize n →
          (SV.Resize d v n).items[i]? = v.items[i]?)
      ∧ (∀ i, v.GetSize ≤ i → i < n → (SV.Resize d v n).items[i]? = some d)
      ∧ (v.GetCapacity < n →
          (SV.Resize d v n).GetCapacity = max n (v.GetCapacity * 2)) := by
  refine ⟨SV.resize_length d v n hinv, SV.resize_capacity_ge d v n, ?_, ?_, ?_⟩
  · intro i hi
    by_cases h : v.items.length ≤ n
    · rw [SV.resize_grow_items d v n h]
      have hil : i < v.items.length := by
        have := Nat.min_le_left v.GetSize n
        unfold SV.GetSize at *
        omega
      exact List.getElem?_append_left hil
    · push_neg at h
      have hc : n ≤ v.capacity := Nat.le_trans (Nat.le_of_lt h) hinv
      rw [SV.resize_shrink_items d v n (Nat.le_of_lt h) hc]
      have hin : i < n := by
        have := Nat.min_le_right v.GetSize n
        unfold SV.GetSize at *
        omega
      simp [List.getElem?_take, hin]
  · intro i hle hlt
    unfold SV.GetSize at hle
    have h : v.items.length ≤ n := Nat.le_trans hle (Nat.le_of_lt hlt)
    rw [SV.resize_grow_items d v n h]
    rw [List.getElem?_append_right hle]
    have : i - v.items.length < n - v.items.length := by omega
    simp [List.getElem?_replicate, this]
  · intro hlt
    unfold SV.GetCapacity at *
    exact SV.resize_capacity_grow d v n hlt

/-- C3 witness: the invariant and the resize specification hold at the
concrete vector `[1, 2]` with capacity 2 resized to 4. -/
theorem C3_witness :
    SV.Inv (SV.mk [1, 2] 2 : SV Nat)
      ∧ ((SV.Resize 0 (SV.mk [1, 2] 2) 4).GetSize = 4
          ∧ 4 ≤ (SV.Resize 0 (SV.mk [1, 2] 2) 4).GetCapacity
          ∧ (∀ i, i < min (SV.mk [1, 2] 2 : SV Nat).GetSize 4 →
              (SV.Resize 0 (SV.mk [1, 2] 2) 4).items[i]?
                = (SV.mk [1, 2] 2 : SV Nat).items[i]?)
          ∧ (∀ i, (SV.mk [1, 2] 2 : SV Nat).GetSize ≤ i → i < 4 →
              (SV.Resize 0 (SV.mk [1, 2] 2) 4).items[i]? = some 0)
          ∧ ((SV.mk [1, 2] 2 : SV Nat).GetCapacity < 4 →
              (SV.Resize 0 (SV.mk [1, 2] 2) 4).GetCapacity
                = max 4 ((SV.mk [1, 2] 2 : SV Nat).GetCapacity * 2))) :=
  ⟨by decide, C3_resize_spec 0 (SV.mk [1, 2] 2) 4 (by decide)⟩

/-- C4: `PushBack` appends exactly one element (the new last slot receives
the given value); when `size == capacity` it grows via the
`Resize(capacity + 1)` path, so the resulting capacity is
`max(capacity + 1, capacity * 2)`; otherwise the capacity is unchanged (the
size is simply incremented).  Consequently pushing `k` elements onto a
default-constructed vector yields `size == k` with `capacity >= size` after
every step. -/
theorem C4_pushBack_spec (d : α) (v : SV α) (x : α) :
    ((SV.PushBack d v x).items = v.items ++ [x]
        ∧ (SV.PushBack d v x).GetSize = v.GetSize + 1
        ∧ (v.GetSize = v.GetCapacity →
            (SV.PushBack d v x).GetCapacity
              = max (v.GetCapacity + 1) (v.GetCapacity * 2))
        ∧ (¬ v.GetSize = v.GetCapacity →
            (SV.PushBack d v x).GetCapacity = v.GetCapacity))
      ∧ (∀ f k, (SV.pushSeq d f k : SV α).GetSize = k
          ∧ k ≤ (SV.pushSeq d f k : SV α).GetCapacity) := by
  refine ⟨⟨SV.pushBack_items d v x, ?_, ?_, ?_⟩, ?_⟩
  · unfold SV.GetSize
    rw [SV.pushBack_items d v x]
    simp
  · intro h
    unfold SV.GetSize SV.GetCapacity at *
    rw [SV.pushBack_capacity d v x]
    simp [h]
  · intro h
    unfold SV.GetSize SV.GetCapacity at *
    rw [SV.pushBack_capacity d v x]
    simp [h]
  · intro f k
    exact SV.pushSeq_spec d f k

/-- C4 witness: pushing onto the full (empty, capacity 0) vector takes the
grow path and yields capacity `max(0 + 1, 0 * 2) = 1`. -/
theorem C4_witness :
    (SV.mk [] 0 : SV Nat).GetSize = (SV.mk [] 0 : SV Nat).GetCapacity
      ∧ (SV.PushBack 0 (SV.mk [] 0 : SV Nat) 7).GetCapacity
          = max ((SV.mk [] 0 : SV Nat).GetCapacity + 1)
              ((SV.mk [] 0 : SV Nat).GetCapacity * 2) :=
  ⟨by decide, (C4_pushBack_spec 0 (SV.mk [] 0) 7).1.2.2.1 (by decide)⟩

/-- C5 counterexample: the claim asserts that sized construction leaves
every element equal to the default value of the element type, for every
type.  The constructor delegates to the move-fill overload, whose loop
repeatedly moves from the same source value; for the movable-only class `X`
of src/simple-vector/main.cpp (default state `x_ = 5`, moved-from state
`x_ = 0`) the loop leaves `5` in slot 0 and the moved-from residue `0` in
every later slot.  With that residue function, a sized vector of length 2
is `[5, 0]`, whose element at offset 1 is not the default 5. -/
theorem C5_counterexample :
    (SV.mkSized (fun _ => (0 : Nat)) 5 2).GetSize = 2
      ∧ (SV.mkSized (fun _ => (0 : Nat)) 5 2).GetCapacity = 2
      ∧ (SV.mkSized (fun _ => (0 : Nat)) 5 2).items = [5, 0]
      ∧ ¬ (SV.mkSized (fun _ => (0 : Nat)) 5 2).items[1]? = some 5 := by
  refine ⟨rfl, rfl, rfl, ?_⟩
  decide

/-- C5 amended: sized construction with no fill value yields
`size == capacity == n`, and every element at offsets `[0, n)` equals the
default value PROVIDED moving from the default value leaves the default
value behind (true for trivially copyable element types such as `int`; the
first slot always receives the default, later slots receive the iterated
moved-from residue). -/
theorem C5_sized_ctor_spec (residue : α → α) (d : α) (n : Nat)
    (hres : residue d = d) :
    (SV.mkSized residue d n).GetSize = n
      ∧ (SV.mkSized residue d n).GetCapacity = n
      ∧ ∀ i, i < n → (SV.mkSized residue d n).items[i]? = some d := by
  unfold SV.mkSized SV.mkSizedMoveFill SV.GetSize SV.GetCapacity
  refine ⟨SV.fillByMove_length residue n d, rfl, ?_⟩
  intro i hi
  show (SV.fillByMove residue n d)[i]? = some d
  rw [SV.fillByMove_fixed residue d hres n]
  simp [List.getElem?_replicate, hi]

/-- C5 witness: with the identity residue (moves behave like copies, as for
`int`) and default value 0, a sized vector of length 3 is three zeros. -/
theorem C5_witness :
    (fun (a : Nat) => a) 0 = 0
      ∧ ((SV.mkSized (fun (a : Nat) => a) 0 3).GetSize = 3
          ∧ (SV.mkSized (fun (a : Nat) => a) 0 3).GetCapacity = 3
          ∧ ∀ i, i < 3 →
              (SV.mkSized (fun (a : Nat) => a) 0 3).items[i]? = some 0) :=
  ⟨rfl, C5_sized_ctor_spec (fun a => a) 0 3 rfl⟩

/-- C7: for every vector, every position `pos` in `[0, size]` and every
value `x`, inserting `x` at `pos` and then erasing at the position returned
by `Insert` (which is the same offset `pos`) restores the original logical
sequence: the same elements and hence the same size.  The capacity is not
part of the statement - it is not necessarily restored (inserting into a
full vector grows it, erasing never shrinks it). -/
theorem C7_insert_erase_roundtrip (v : SV α) (pos : Nat) (x : α)
    (hpos : pos ≤ v.GetSize) :
    (SV.Erase (SV.Insert v pos x) pos).items = v.items
      ∧ (SV.Erase (SV.Insert v pos x) pos).GetSize = v.GetSize := by
  unfold SV.GetSize at *
  have hitems :
      (SV.Erase (SV.Insert v pos x) pos).items = v.items := by
    unfold SV.Erase
    rw [SV.insert_items v pos x]
    have hlen : (v.items.take pos).length = pos := by
      simp [List.length_take]
      omega
    have htake :
        (v.items.take pos ++ x :: v.items.drop pos).take pos
          = v.items.take pos := by
      rw [List.take_append_eq_append_take]
      simp [hlen]
    have hdrop :
        (v.items.take pos ++ x :: v.items.drop pos).drop (pos + 1)
          = v.items.drop pos := by
      have hsplit : v.items.take pos ++ x :: v.items.drop pos
          = (v.items.take pos ++ [x]) ++ v.items.drop pos := by
        simp
      rw [hsplit]
      have hlen1 : (v.items.take pos ++ [x]).length = pos + 1 := by
        simp [hlen]
      rw [List.drop_append_eq_append_drop]
      simp [hlen1]
    rw [htake, hdrop]
    exact List.take_append_drop pos v.items
  exact ⟨hitems, by rw [hitems]⟩

/-- C7 witness: inserting 9 at offset 1 of `[1, 2, 3]` and erasing at the
returned offset restores the sequence. -/
theorem C7_witness :
    1 ≤ (SV.mk [1, 2, 3] 3 : SV Nat).GetSize
      ∧ ((SV.Erase (SV.Insert (SV.mk [1, 2, 3] 3 : SV Nat) 1 9) 1).items
            = (SV.mk [1, 2, 3] 3 : SV Nat).items
          ∧ (SV.Erase (SV.Insert (SV.mk [1, 2, 3] 3 : SV Nat) 1 9) 1).GetSize
            = (SV.mk [1, 2, 3] 3 : SV Nat).GetSize) :=
  ⟨by decide, C7_insert_erase_roundtrip (SV.mk [1, 2, 3] 3) 1 9 (by decide)⟩

/-- C8: `At(index)` fails (throws `std::out_of_range`) exactly when
`index >= size`, and for `index < size` it returns the same element as the
unchecked `operator[]`.  The source code of both the mutable and the const
variant is identical on the visible state, and neither modifies the vector
(in the model `At` is a pure function of the state). -/
theorem C8_at_spec (v : SV α) (index : Nat) :
    (SV.At v index = Except.error () ↔ v.GetSize ≤ index)
      ∧ (index < v.GetSize →
          ∃ a, SV.At v index = Except.ok a
            ∧ SV.getUnchecked v index = some a) := by
  unfold SV.At SV.getUnchecked SV.GetSize
  by_cases h : v.items.length ≤ index
  · simp [h]
  · push_neg at h
    have hsome : v.items[index]? = some v.items[index] :=
      List.getElem?_eq_getElem h
    rw [if_neg (by omega)]
    rw [hsome]
    constructor
    · simp
      omega
    · intro _
      exact ⟨v.items[index], rfl, rfl⟩

/-- C8 witness: on the vector `[7]`, checked access at offset 0 agrees with
unchecked access. -/
theorem C8_witness :
    ∃ a, SV.At (SV.mk [7] 1 : SV Nat) 0 = Except.ok a
      ∧ SV.getUnchecked (SV.mk [7] 1 : SV Nat) 0 = some a :=
  (C8_at_spec (SV.mk [7] 1 : SV Nat) 0).2 (by decide)

/-- C9: starting from states satisfying `size <= capacity`, every
`SimpleVector` operation (every constructor, both assignments, and every
mutator) yields states satisfying `size <= capacity`.  The pure model is
the successful completion of each operation. -/
theorem C9_inv_preservation (d x : α) (residue : α → α) (n c index : Nat)
    (l : List α) (v w : SV α) (hv : v.Inv) (hw : w.Inv) :
    (SV.mkDefault : SV α).Inv
      ∧ (SV.mkSized residue d n).Inv
      ∧ (SV.mkSizedMoveFill residue n x).Inv
      ∧ (SV.mkFill n x).Inv
      ∧ (SV.mkFromList l).Inv
      ∧ (SV.mkReserved c : SV α).Inv
      ∧ (SV.copyCtor v).Inv
      ∧ (SV.moveCtor v).1.Inv
      ∧ (SV.moveCtor v).2.Inv
      ∧ (SV.assignCopy v w).Inv
      ∧ (SV.assignMove v w).1.Inv
      ∧ (SV.assignMove v w).2.Inv
      ∧ (SV.Reserve v c).Inv
      ∧ (SV.Resize d v n).Inv
      ∧ (SV.PushBack d v x).Inv
      ∧ (SV.Insert v index x).Inv
      ∧ (SV.Erase v index).Inv
      ∧ (SV.PopBack v).Inv
      ∧ (SV.Clear v).Inv
      ∧ (SV.swapSV v w).1.Inv
      ∧ (SV.swapSV v w).2.Inv := by
  unfold SV.Inv at hv hw
  refine ⟨Nat.le_refl 0, ?_, ?_, ?_, ?_, ?_, hv, Nat.le_refl _, Nat.le_refl 0,
    hw, hw, Nat.le_refl 0, ?_, ?_, SV.pushBack_inv d v x hv,
    SV.insert_inv v index x hv, ?_, ?_, Nat.zero_le _, hw, hv⟩
  · show (SV.fillByMove residue n d).length ≤ n
    rw [SV.fillByMove_length residue n d]
  · show (SV.fillByMove residue n x).length ≤ n
    rw [SV.fillByMove_length residue n x]
  · show (List.replicate n x).length ≤ n
    simp
  · exact Nat.le_refl _
  · unfold SV.mkReserved SV.Reserve SV.mkDefault SV.Inv
    split <;> exact Nat.zero_le _
  · unfold SV.Reserve SV.Inv
    split
    · rename_i h
      exact Nat.le_trans hv (Nat.le_of_lt h)
    · exact hv
  · unfold SV.Inv
    rw [SV.resize_length d v n hv]
    exact SV.resize_capacity_ge d v n
  · unfold SV.Erase SV.Inv
    simp only [List.length_append, List.length_take, List.length_drop]
    omega
  · unfold SV.PopBack SV.Inv
    split
    · exact hv
    · simp only [List.length_dropLast]
      omega

/-- C9 witness: the invariant preservation instantiated at concrete states
`[1]` with capacity 2 and `[5, 6]` with capacity 2. -/
theorem C9_witness :
    SV.Inv (SV.mk [1] 2 : SV Nat)
      ∧ SV.Inv (SV.mk [5, 6] 2 : SV Nat)
      ∧ ((SV.mkDefault : SV Nat).Inv
          ∧ (SV.mkSized (fun a => a) 0 3).Inv
          ∧ (SV.mkSizedMoveFill (fun a => a) 3 7).Inv
          ∧ (SV.mkFill 3 (7 : Nat)).Inv
          ∧ (SV.mkFromList [(9 : Nat)]).Inv
          ∧ (SV.mkReserved 4 : SV Nat).Inv
          ∧ (SV.copyCtor (SV.mk [1] 2 : SV Nat)).Inv
          ∧ (SV.moveCtor (SV.mk [1] 2 : SV Nat)).1.Inv
          ∧ (SV.moveCtor (SV.mk [1] 2 : SV Nat)).2.Inv
          ∧ (SV.assignCopy (SV.mk [1] 2 : SV Nat) (SV.mk [5, 6] 2)).Inv
          ∧ (SV.assignMove (SV.mk [1] 2 : SV Nat) (SV.mk [5, 6] 2)).1.Inv
          ∧ (SV.assignMove (SV.mk [1] 2 : SV Nat) (SV.mk [5, 6] 2)).2.Inv
          ∧ (SV.Reserve (SV.mk [1] 2 : SV Nat) 4).Inv
          ∧ (SV.Resize 0 (SV.mk [1] 2 : SV Nat) 3).Inv
          ∧ (SV.PushBack 0 (SV.mk [1] 2 : SV Nat) 7).Inv
          ∧ (SV.Insert (SV.mk [1] 2 : SV Nat) 1 7).Inv
          ∧ (SV.Erase (SV.mk [1] 2 : SV Nat) 1).Inv
          ∧ (SV.PopBack (SV.mk [1] 2 : SV Nat)).Inv
          ∧ (SV.Clear (SV.mk [1] 2 : SV Nat)).Inv
          ∧ (SV.swapSV (SV.mk [1] 2 : SV Nat) (SV.mk [5, 6] 2)).1.Inv
          ∧ (SV.swapSV (SV.mk [1] 2 : SV Nat) (SV.mk [5, 6] 2)).2.Inv) :=
  ⟨by decide, by decide,
    C9_inv_preservation 0 7 (fun a => a) 3 4 1 [9] (SV.mk [1] 2)
      (SV.mk [5, 6] 2) (by decide) (by decide)⟩

end Claims

end SimpleVec

